import Mathlib

/-!
Verification of the `evodom` rules engine (`src/evolvedominion/engine/engine.py`)
against its specification.

The engine's data model and the zone-transfer / decision / process machinery
are embedded shallowly below.  Python lists become `List Piece`; the mutable
`State`/`Actor` graph becomes the immutable records `GState`/`Actor` with
explicit state passing; Python exceptions (NameError, ValueError, IndexError)
become `Except PyErr`; `np.random.shuffle` becomes an explicit permutation
parameter `σ`.  Pieces carry a `pid` field so that structural equality of the
embedded values corresponds to Python object identity (distinct physical card
copies get distinct `pid`s).

Everything is translated from the engine source except for three helpers the
repository imports from modules that are not part of the source tree
(`evolvedominion.engine.combinatorics` and the `State` class): `partition`,
`get_pieces` and `filter_supply`.  Those carry a `Modelled from the spec:`
doc comment and follow the specification's wording.
-/

namespace Evodom

/-- A card definition plus instance identity: `pid` distinguishes physical
copies of the same card type (Python object identity); `total_order_index`
is the card type's globally unique rank, used as the supply-pile index. -/
structure Piece where
  pid : Nat
  name : String
  cost : Int
  total_order_index : Nat
  is_action : Bool
  is_treasure : Bool
  is_victory : Bool
  is_province : Bool
  is_potential_terminator : Bool
  deriving DecidableEq

instance : Inhabited Piece :=
  ⟨⟨0, "", 0, 0, false, false, false, false, false⟩⟩

/-- The phase constants from `evolvedominion.params`. -/
inductive Phase where
  | action
  | treasure
  | buy
  deriving DecidableEq

/-- Python runtime errors that the engine code can raise. -/
inductive PyErr where
  | nameError (n : String)
  | valueError
  | indexError
  | typeError
  deriving DecidableEq

/-- The five zones owned by an `Actor`, used to refer to a zone by name when
the Python code passes a zone list as an argument. -/
inductive AZone where
  | hand
  | deck
  | discard
  | play
  | aside
  deriving DecidableEq

/-- An Actor's five zones.  The top of the deck is the END of the `DECK`
list, matching the Python code (`DECK[-1]` is the top card and
`transfer_top_piece` pops from the end). -/
structure Actor where
  HAND : List Piece
  DECK : List Piece
  DISCARD : List Piece
  PLAY : List Piece
  ASIDE : List Piece
  deriving DecidableEq

def getAZ (a : Actor) : AZone → List Piece
  | .hand => a.HAND
  | .deck => a.DECK
  | .discard => a.DISCARD
  | .play => a.PLAY
  | .aside => a.ASIDE

def setAZ (a : Actor) (z : AZone) (l : List Piece) : Actor :=
  match z with
  | .hand => { a with HAND := l }
  | .deck => { a with DECK := l }
  | .discard => { a with DISCARD := l }
  | .play => { a with PLAY := l }
  | .aside => { a with ASIDE := l }

/-- The shared mutable `State`: supply piles (indexed by
`total_order_index`), the trash, per-turn counters and phase flags, and the
players (actors are referred to by their index into `players`). -/
structure GState where
  players : List Actor
  piles : List (List Piece)
  TRASH : List Piece
  n_action : Int
  n_buy : Int
  n_coin : Int
  n_empty_piles : Int
  n_silver_played_this_turn : Int
  merchant_silver_bonus : Int
  need_action_phase : Bool
  need_treasure_phase : Bool
  need_buy_phase : Bool
  province_pile_empty : Bool
  deriving DecidableEq

deriving instance DecidableEq for Except

def emptyActor : Actor := ⟨[], [], [], [], []⟩

/-- Fetch an actor (Python holds object references; an out-of-range index is
an artifact of the index-based embedding and reported as `indexError`). -/
def getPlayer (g : GState) (i : Nat) : Except PyErr Actor :=
  match g.players[i]? with
  | some a => .ok a
  | none => .error .indexError

def setPlayer (g : GState) (i : Nat) (a : Actor) : Except PyErr GState :=
  if i < g.players.length then .ok { g with players := g.players.set i a }
  else .error .indexError

/-- Total variant used by choice generators (always applied at in-range
indices in the theorems below). -/
def playerD (g : GState) (i : Nat) : Actor := g.players.getD i emptyActor

/-! ### List-level primitives -/

/-- Model of `source.pop(source.index(piece))`: remove the first occurrence of
`piece`; `none` models the `ValueError` raised when `piece` is absent. -/
def removeFirst (piece : Piece) : List Piece → Option (List Piece)
  | [] => none
  | x :: xs => if x = piece then some xs else (removeFirst piece xs).map (x :: ·)

/-- Model of `transfer_piece(piece, destination, source)`:
`destination.append(source.pop(source.index(piece)))`. -/
def transfer_piece_list (piece : Piece) (destination source : List Piece) :
    Except PyErr (List Piece × List Piece) :=
  match removeFirst piece source with
  | some source' => .ok (destination ++ [piece], source')
  | none => .error .valueError

/-- Model of `transfer_top_piece(destination, source)`:
`destination.append(source.pop())`; popping an empty list raises. -/
def transfer_top_list (destination source : List Piece) :
    Except PyErr (List Piece × List Piece) :=
  match source.getLast? with
  | some x => .ok (destination ++ [x], source.dropLast)
  | none => .error .indexError

/-- Model of `while source: transfer_top_piece(destination, source)` — drain `source`
into `destination` one top card at a time. -/
def drain (destination source : List Piece) : List Piece × List Piece :=
  match h : source.getLast? with
  | none => (destination, source)
  | some x =>
    have hne : source ≠ [] := by
      intro he
      rw [he] at h
      exact Option.noConfusion h
    have : source.dropLast.length < source.length := by
      rw [List.length_dropLast]
      exact Nat.pred_lt (by simpa [List.length_eq_zero] using hne)
    drain (destination ++ [x]) source.dropLast
  termination_by source.length

/-! ### Combinatorics helpers

The engine imports these from `evolvedominion.engine.combinatorics`, which is
not part of the source tree; they are modelled from §4.1 of the spec. -/

/-- Modelled from the spec: `partition(predicate, items) -> (matching,
non_matching)`, stable, preserving input order within each output. -/
def partition {α : Type} (p : α → Bool) (l : List α) : List α × List α :=
  (l.filter p, l.filter (fun x => !(p x)))

/-- Keep the first occurrence per distinct Piece type (the spec names
`total_order_index` as the canonical, globally unique per-type key);
`seen` accumulates the type keys already represented. -/
def dedupByTypeAux (seen : List Nat) : List Piece → List Piece
  | [] => []
  | x :: xs =>
    if x.total_order_index ∈ seen then dedupByTypeAux seen xs
    else x :: dedupByTypeAux (x.total_order_index :: seen) xs

def dedupByType (l : List Piece) : List Piece := dedupByTypeAux [] l

/-- Modelled from the spec: `get_pieces(zone, unique, predicate=None)` filters
by the predicate; if `unique`, returns at most one representative per
distinct Piece type, keeping the first occurrence in zone order. -/
def get_pieces (zone : List Piece) (unique : Bool)
    (predicate : Piece → Bool := fun _ => true) : List Piece :=
  let filtered := zone.filter predicate
  if unique then dedupByType filtered else filtered

/-! ### State-mutation primitives (engine.py)

Each definition mirrors the engine function of the same name.  `σ` is the
`np.random.shuffle` permutation, threaded explicitly. -/

/-- Model of `end_phase(state, actor, phase)` (the `actor` argument is unused by the
source). -/
def end_phase (g : GState) (_actor : Nat) (phase : Phase) : GState :=
  match phase with
  | .action => { g with need_action_phase := false, n_action := 0 }
  | .treasure => { g with need_treasure_phase := false }
  | .buy => { g with need_buy_phase := false, n_buy := 0 }

def pay_cost (g : GState) (piece : Piece) : GState :=
  { g with n_buy := g.n_buy - 1, n_coin := g.n_coin - piece.cost }

/-- Model of `handle_acquisition`: transfer `piece` out of
`state.piles[piece.total_order_index]` into the destination zone of player
`i`, then track empty piles and Province exhaustion. -/
def handle_acquisition (g : GState) (i : Nat) (piece : Piece)
    (destination : AZone) : Except PyErr GState := do
  let source ← match g.piles[piece.total_order_index]? with
    | some s => Except.ok s
    | none => Except.error .indexError
  match removeFirst piece source with
  | none => .error .valueError
  | some source' => do
    let a ← getPlayer g i
    let g1 := { g with piles := g.piles.set piece.total_order_index source' }
    let g2 ← setPlayer g1 i (setAZ a destination (getAZ a destination ++ [piece]))
    if source'.isEmpty then
      let g3 := { g2 with n_empty_piles := g2.n_empty_piles + 1 }
      pure (if piece.is_province then { g3 with province_pile_empty := true } else g3)
    else
      pure g2

/-- Model of `gain(state, actor, piece, destination=None)`; default destination is the
actor's DISCARD. -/
def gain (g : GState) (i : Nat) (piece : Piece)
    (destination : Option AZone) : Except PyErr GState :=
  handle_acquisition g i piece (destination.getD .discard)

/-- Model of `buy_piece`: pay the cost, then acquire. -/
def buy_piece (g : GState) (i : Nat) (piece : Piece)
    (destination : Option AZone) : Except PyErr GState :=
  handle_acquisition (pay_cost g piece) i piece (destination.getD .discard)

/-- The zone mutation performed by `play_piece(state, actor, piece, source,
free)`: spend an action unless `free`, then move `piece` from the source
(default HAND) into PLAY.  The subsequent `resolve_effects` call recursively
applies further Effects, each of which is again one of the transfer
operations modelled here (see `applyTransferOps`). -/
def play_piece (g : GState) (i : Nat) (piece : Piece)
    (source : Option AZone) (free : Bool) : Except PyErr GState := do
  let g0 := if free then g else { g with n_action := g.n_action - 1 }
  let a ← getPlayer g0 i
  let s := source.getD .hand
  match removeFirst piece (getAZ a s) with
  | none => .error .valueError
  | some s' =>
    let a1 := setAZ a s s'
    setPlayer g0 i (setAZ a1 .play (getAZ a1 .play ++ [piece]))

/-- Model of `replenish_deck(actor)`: drain the deck into `limbo`, move the discard
under it, shuffle only the former discard, then put the drained cards back
on top in their original order. -/
def replenish_deck (σ : List Piece → List Piece) (a : Actor) : Actor :=
  let drained := drain [] a.DECK
  let limbo := drained.1
  let a1 := { a with DECK := drained.2 ++ a.DISCARD, DISCARD := ([] : List Piece) }
  let a2 := { a1 with DECK := σ a1.DECK }
  let back := drain a2.DECK limbo
  { a2 with DECK := back.1 }

def validate_deck_size (a : Actor) (n : Nat) : Bool :=
  n ≤ a.DECK.length

/-- Model of `prepare_deck(actor, n)`: replenish if the deck is short and the discard
pile is non-empty. -/
def prepare_deck (σ : List Piece → List Piece) (a : Actor) (n : Nat) : Actor :=
  if !(validate_deck_size a n) then
    if a.DISCARD ≠ [] then replenish_deck σ a else a
  else a

/-- The `for i in range(true_n): transfer_top_piece(HAND, DECK)` loop of
`draw`. -/
def drawLoop (a : Actor) : Nat → Except PyErr Actor
  | 0 => .ok a
  | k + 1 => do
    let hd ← transfer_top_list a.HAND a.DECK
    drawLoop { a with HAND := hd.1, DECK := hd.2 } k

/-- Model of `draw(state, actor, n)`: prepare the deck, then move
`min(n, len(DECK))` cards from the top of the deck into the hand.
(`actor.peek` is an external display capability with no effect on zones and
is omitted.) -/
def draw (σ : List Piece → List Piece) (g : GState) (i : Nat) (n : Nat) :
    Except PyErr GState := do
  let a ← getPlayer g i
  let a1 := prepare_deck σ a n
  let true_n := min n a1.DECK.length
  let a2 ← drawLoop a1 true_n
  setPlayer g i a2

/-- Model of `swap_top_cards_of_deck`: pop the top two cards into `limbo`, then extend
the deck with `limbo` (which reverses their order). -/
def swap_top_cards_of_deck (g : GState) (i : Nat) : Except PyErr GState := do
  let a ← getPlayer g i
  let l1 ← transfer_top_list [] a.DECK
  let l2 ← transfer_top_list l1.1 l1.2
  setPlayer g i { a with DECK := l2.2 ++ l2.1 }

/-- Model of `trash(state, actor, piece, source=None)`: move `piece` from the source
zone (default HAND) to `state.TRASH`. -/
def trash (g : GState) (i : Nat) (piece : Piece)
    (source : Option AZone) : Except PyErr GState := do
  let a ← getPlayer g i
  let s := source.getD .hand
  match removeFirst piece (getAZ a s) with
  | none => .error .valueError
  | some s' => do
    let g1 ← setPlayer g i (setAZ a s s')
    pure { g1 with TRASH := g1.TRASH ++ [piece] }

/-- Model of `trash_pieces`: trash each piece in order. -/
def trash_pieces (g : GState) (i : Nat) (pieces : List Piece)
    (source : Option AZone) : Except PyErr GState :=
  match pieces with
  | [] => .ok g
  | p :: ps => do
    let g1 ← trash g i p source
    trash_pieces g1 i ps source

/-- Model of `put(state, actor, piece, destination=None, source=None)`; defaults HAND
and DECK. -/
def put (g : GState) (i : Nat) (piece : Piece)
    (destination source : Option AZone) : Except PyErr GState := do
  let a ← getPlayer g i
  let d := destination.getD .hand
  let s := source.getD .deck
  match removeFirst piece (getAZ a s) with
  | none => .error .valueError
  | some s' =>
    let a1 := setAZ a s s'
    setPlayer g i (setAZ a1 d (getAZ a1 d ++ [piece]))

/-- Model of `set_aside(state, actor, piece, source)`. -/
def set_aside (g : GState) (i : Nat) (piece : Piece)
    (source : AZone) : Except PyErr GState := do
  let a ← getPlayer g i
  match removeFirst piece (getAZ a source) with
  | none => .error .valueError
  | some s' =>
    let a1 := setAZ a source s'
    setPlayer g i (setAZ a1 .aside (getAZ a1 .aside ++ [piece]))

/-- Model of `topdeck(state, actor, piece, source)`. -/
def topdeck (g : GState) (i : Nat) (piece : Piece)
    (source : AZone) : Except PyErr GState := do
  let a ← getPlayer g i
  match removeFirst piece (getAZ a source) with
  | none => .error .valueError
  | some s' =>
    let a1 := setAZ a source s'
    setPlayer g i (setAZ a1 .deck (getAZ a1 .deck ++ [piece]))

/-- Model of `discard_piece(state, actor, piece, source=None)`: partition the source
zone by identity with `piece`, keep the rest (in order), extend DISCARD with
the matches. -/
def discard_piece (g : GState) (i : Nat) (piece : Piece)
    (source : Option AZone) : Except PyErr GState := do
  let a ← getPlayer g i
  let sname := source.getD .hand
  let parts := partition (fun x => x = piece) (getAZ a sname)
  let a1 := setAZ a sname parts.2
  let a2 := setAZ a1 .discard (getAZ a1 .discard ++ parts.1)
  setPlayer g i a2

/-- Model of `discard_pieces(state, actor, pieces, source=None)`: split the source
zone by identity-membership in `pieces`, keep the rest, extend DISCARD. -/
def discard_pieces (g : GState) (i : Nat) (pieces : List Piece)
    (source : Option AZone) : Except PyErr GState := do
  let a ← getPlayer g i
  let sname := source.getD .hand
  let src := getAZ a sname
  let to_discard := src.filter (fun x => pieces.any (fun q => q = x))
  let to_keep := src.filter (fun x => !(pieces.any (fun q => q = x)))
  let a1 := setAZ a sname to_keep
  let a2 := setAZ a1 .discard (getAZ a1 .discard ++ to_discard)
  setPlayer g i a2

/-- Model of `discard_zone(state, actor, source)`: extend DISCARD with the source
zone, then clear it.  The engine's only use (`LibraryTeardown`) passes
`actor.ASIDE`, which is fixed here. -/
def discard_zone (g : GState) (i : Nat) : Except PyErr GState := do
  let a ← getPlayer g i
  let a1 := setAZ a .discard (a.DISCARD ++ a.ASIDE)
  setPlayer g i (setAZ a1 .aside [])

/-! ### Effects and Consequences

An `Eff` is one `Effect(function, **kwargs)` closure of the engine: the
function reference plus its bound keyword arguments (with the actor encoded
as a player index).  `Eff.update_immunity` is the `Update` effect attacks
use to flip the owning Process's private `immunity` flag; applying an
effect therefore threads the pair (game state, process immunity flag). -/
inductive Eff where
  | eff_end_phase (i : Nat) (phase : Phase)
  | eff_do_nothing (i : Nat)
  | eff_reveal (i : Nat) (piece : Piece)
  | eff_buy_piece (i : Nat) (piece : Piece) (destination : Option AZone)
  | eff_gain (i : Nat) (piece : Piece) (destination : Option AZone)
  | eff_trash (i : Nat) (piece : Piece) (source : Option AZone)
  | eff_discard_piece (i : Nat) (piece : Piece) (source : Option AZone)
  | eff_discard_pieces (i : Nat) (pieces : List Piece) (source : Option AZone)
  | eff_put (i : Nat) (piece : Piece)
  | eff_set_aside (i : Nat) (piece : Piece) (source : AZone)
  | eff_topdeck (i : Nat) (piece : Piece) (source : AZone)
  | eff_swap_top (i : Nat)
  | update_immunity
  deriving DecidableEq

/-- Apply one `Eff` (`effect(state)` in `enact`).  `reveal` and `do_nothing`
are no-ops on the state; `update_immunity` mutates only the process flag. -/
def applyEff (g : GState) (imm : Bool) : Eff → Except PyErr (GState × Bool)
  | .eff_end_phase i phase => .ok (end_phase g i phase, imm)
  | .eff_do_nothing _ => .ok (g, imm)
  | .eff_reveal _ _ => .ok (g, imm)
  | .eff_buy_piece i piece destination => (buy_piece g i piece destination).map (·, imm)
  | .eff_gain i piece destination => (gain g i piece destination).map (·, imm)
  | .eff_trash i piece source => (trash g i piece source).map (·, imm)
  | .eff_discard_piece i piece source => (discard_piece g i piece source).map (·, imm)
  | .eff_discard_pieces i pieces source => (discard_pieces g i pieces source).map (·, imm)
  | .eff_put i piece => (put g i piece none none).map (·, imm)
  | .eff_set_aside i piece source => (set_aside g i piece source).map (·, imm)
  | .eff_topdeck i piece source => (topdeck g i piece source).map (·, imm)
  | .eff_swap_top i => (swap_top_cards_of_deck g i).map (·, imm)
  | .update_immunity => .ok (g, true)

/-- The tag carried by each `Consequence` subclass, used by
`classify_consequences` (custom messages are display-only and omitted). -/
inductive ConsTag where
  | passTag
  | nullTag
  | actTag
  | acqTag
  | purchaseTag
  | depAcqTag
  | plainTag
  deriving DecidableEq

/-- A `Consequence`: an ordered list of Effects plus its subclass tag. -/
structure Cons where
  tag : ConsTag
  effects : List Eff
  deriving DecidableEq

/-- Model of `PassOption(actor, phase)`. -/
def PassOption (i : Nat) (phase : Phase) : Cons :=
  ⟨.passTag, [Eff.eff_end_phase i phase]⟩

/-- Model of `NullOption(actor)`. -/
def NullOption (i : Nat) : Cons :=
  ⟨.nullTag, [Eff.eff_do_nothing i]⟩

/-- Model of `Purchase(actor, piece)`. -/
def Purchase (i : Nat) (piece : Piece) : Cons :=
  ⟨.purchaseTag, [Eff.eff_buy_piece i piece none]⟩

/-- Model of `Acquisition(Effect(gain, actor, piece))` as built by WitchProcedure. -/
def AcquisitionGain (i : Nat) (piece : Piece) : Cons :=
  ⟨.acqTag, [Eff.eff_gain i piece none]⟩

/-- Model of `enact(state, consequence)`: apply every effect in order. -/
def enactC (g : GState) (imm : Bool) (c : Cons) : Except PyErr (GState × Bool) :=
  go g imm c.effects
where
  go (g : GState) (imm : Bool) : List Eff → Except PyErr (GState × Bool)
    | [] => .ok (g, imm)
    | e :: es => do
      let gi ← applyEff g imm e
      go gi.1 gi.2 es

/-! ### Decisions -/

/-- Modelled from the spec: `State.filter_supply(predicate)` — the Buy phase
"filters Supply piles" by the predicate; per the reference tests the result
is the top card of each non-empty matching pile, in pile order
(`gained_piece is state.piles[pile_index][-1]`). -/
def filter_supply (g : GState) (p : Piece → Bool) : List Piece :=
  g.piles.filterMap (fun pile =>
    match pile.getLast? with
    | some top => if p top then some top else none
    | none => none)

/-- Model of `BuyChoices.generate_choices`: a PassOption, then (when buys remain) one
Purchase per affordable supply pile. -/
def buyChoices_generate_choices (g : GState) (i : Nat) : List Cons :=
  let choices := [PassOption i .buy]
  if g.n_buy ≠ 0 then
    choices ++ (filter_supply g (fun x => x.cost ≤ g.n_coin)).map (Purchase i)
  else choices

/-- Model of `ImmunityProcedure.generate_choices`: if the victim holds a Moat, the
single choice reveals it and marks the attack's immunity flag; otherwise a
NullOption. -/
def immunityProcedure_generate_choices (g : GState) (i : Nat) : List Cons :=
  let moat := get_pieces (playerD g i).HAND true (fun x => x.name = "Moat")
  match moat with
  | m :: _ => [⟨.plainTag, [Eff.eff_reveal i m, Eff.update_immunity]⟩]
  | [] => [NullOption i]

/-- A Python local that may be referenced before assignment: reading `none`
raises `NameError`. -/
def pyLocal {α : Type} (o : Option α) (n : String) : Except PyErr α :=
  match o with
  | some v => .ok v
  | none => .error (.nameError n)

/-- Model of `WitchProcedure.generate_choices`.  The source appends to a local list
`choices` that is never initialised, in both branches, so the method raises
`NameError` instead of returning choices. -/
def witchProcedure_generate_choices (g : GState) (i : Nat) :
    Except PyErr (GState × List Cons) := do
  let gainables := filter_supply g (fun x => x.name = "Curse")
  let choices : Option (List Cons) := none
  match gainables with
  | c :: _ => do
    let cs ← pyLocal choices "choices"
    pure (g, cs ++ [AcquisitionGain i c])
  | [] => do
    let cs ← pyLocal choices "choices"
    pure (g, cs ++ [NullOption i])

/-- One reveal-and-topdeck consequence of `BureaucratProcedure`. -/
def bureaucratTopdeckCons (i : Nat) (vc : Piece) : Cons :=
  ⟨.plainTag, [Eff.eff_reveal i vc, Eff.eff_topdeck i vc .hand]⟩

/-- Model of `BureaucratProcedure.generate_choices`.  As in `WitchProcedure`, the
local `choices` list is never initialised before being appended to: every
branch (no victory cards with empty hand, no victory cards with cards to
reveal, or at least one victory card) hits the unbound name.  The appends
after the failing lookup model the intended, unreachable continuation. -/
def bureaucratProcedure_generate_choices (g : GState) (i : Nat) :
    Except PyErr (GState × List Cons) := do
  let a := playerD g i
  let victory_cards := get_pieces a.HAND true (fun x => x.is_victory)
  let choices : Option (List Cons) := none
  match victory_cards with
  | [] =>
    if a.HAND = [] then do
      let cs ← pyLocal choices "choices"
      pure (g, cs ++ [NullOption i])
    else do
      let reveal_effects := a.HAND.map (fun card => Eff.eff_reveal i card)
      let cs ← pyLocal choices "choices"
      pure (g, cs ++ [⟨.plainTag, reveal_effects⟩])
  | _ :: _ => do
    let cs ← pyLocal choices "choices"
    pure (g, cs ++ victory_cards.map (bureaucratTopdeckCons i))

/-- Model of `BanditProcedure.could_trash`: a Treasure other than Copper. -/
def could_trash (piece : Piece) : Bool :=
  piece.is_treasure && piece.name ≠ "Copper"

/-- Model of `BanditProcedure.generate_choices`.  The single-top-card branch binds
the chosen effect to `effect_function` but then references `effect_method`,
an unbound name, so that branch raises `NameError`. -/
def banditProcedure_generate_choices (σ : List Piece → List Piece)
    (g : GState) (i : Nat) : Except PyErr (GState × List Cons) := do
  let a := playerD g i
  let a1 := prepare_deck σ a 2
  let g1 := { g with players := g.players.set i a1 }
  if a1.DECK = [] then
    pure (g1, [NullOption i])
  else
    let decksize := a1.DECK.length
    if decksize = 1 then do
      let effect_function : Option Unit := none
      let _ ← pyLocal effect_function "effect_method"
      pure (g1, [])
    else do
      let topcards := [a1.DECK.getLast?.getD default, (a1.DECK.dropLast).getLast?.getD default]
      let reveal_effects := topcards.map (fun card => Eff.eff_reveal i card)
      let parts := partition could_trash topcards
      let trashables := parts.1
      let discardables := parts.2
      let unique_trashables := get_pieces trashables true
      let n_unique_trashables := unique_trashables.length
      if n_unique_trashables = 2 then
        let mk := fun (ti di : Nat) =>
          Cons.mk .plainTag (reveal_effects ++
            [Eff.eff_trash i (unique_trashables.getD ti default) (some .deck),
             Eff.eff_discard_piece i (unique_trashables.getD di default) (some .deck)])
        pure (g1, [mk 0 1, mk 1 0])
      else if n_unique_trashables = 1 then
        let base := reveal_effects ++
          [Eff.eff_trash i (unique_trashables.getD 0 default) (some .deck)]
        let es := if discardables ≠ [] then
            base ++ [Eff.eff_discard_piece i (discardables.getD 0 default) (some .deck)]
          else base
        pure (g1, [Cons.mk .plainTag es])
      else
        pure (g1, [Cons.mk .plainTag (reveal_effects ++
          [Eff.eff_discard_pieces i discardables (some .deck)])])

/-- The module-level functions of `engine.py` that reveal-then-decide
decisions select between by bare name (`functions = [trash, discard]`). -/
inductive EffFn where
  | fn_trash
  | fn_discard_piece
  deriving DecidableEq

/-- The module's global name table for those functions.  `engine.py` defines
`trash`, `discard_piece`, `discard_pieces` and `discard_zone` at module
scope, but no function named `discard`; looking that name up fails. -/
def resolveModuleName (s : String) : Option EffFn :=
  if s = "trash" then some .fn_trash
  else if s = "discard_piece" then some .fn_discard_piece
  else none

/-- Resolving a bare module-level name: `NameError` when undefined. -/
def pyModuleName (s : String) : Except PyErr EffFn :=
  match resolveModuleName s with
  | some f => .ok f
  | none => .error (.nameError s)

/-- Model of `Effect(function, actor, piece, source)` for a name-selected function. -/
def effOfFn (f : EffFn) (i : Nat) (piece : Piece) (source : AZone) : Eff :=
  match f with
  | .fn_trash => Eff.eff_trash i piece (some source)
  | .fn_discard_piece => Eff.eff_discard_piece i piece (some source)

/-- Model of `SentryChoices.generate_choices`.  After the empty-deck early return the
source builds `functions = [trash, discard]`; `discard` is not a name
defined in the module, so the method raises `NameError` before any of the
trash/discard/swap choices can be produced.  The remainder models the
intended (unreachable) continuation. -/
def sentryChoices_generate_choices (σ : List Piece → List Piece)
    (g : GState) (i : Nat) : Except PyErr (GState × List Cons) := do
  let a := playerD g i
  let a1 := prepare_deck σ a 2
  let g1 := { g with players := g.players.set i a1 }
  if a1.DECK = [] then
    pure (g1, [NullOption i])
  else do
    let choices := [NullOption i]
    let decksize := a1.DECK.length
    let topcards :=
      if decksize = 1 then [a1.DECK.getLast?.getD default]
      else [a1.DECK.getLast?.getD default, (a1.DECK.dropLast).getLast?.getD default]
    let f1 ← pyModuleName "trash"
    let f2 ← pyModuleName "discard"
    let functions := [f1, f2]
    let choices := choices ++ functions.map (fun f =>
      Cons.mk .plainTag (topcards.map (fun tc => effOfFn f i tc .deck)))
    let unique_topcards := get_pieces topcards true
    let n_unique_topcards := unique_topcards.length
    if n_unique_topcards = 2 then
      let permuted := fun (ti di : Nat) =>
        [Cons.mk .plainTag
           [Eff.eff_trash i (topcards.getD ti default) (some .deck),
            Eff.eff_discard_piece i (topcards.getD di default) (some .deck)],
         Cons.mk .plainTag [Eff.eff_trash i (topcards.getD ti default) (some .deck)],
         Cons.mk .plainTag [Eff.eff_discard_piece i (topcards.getD di default) (some .deck)]]
      pure (g1, choices ++ [Cons.mk .plainTag [Eff.eff_swap_top i]] ++ permuted 0 1 ++ permuted 1 0)
    else
      pure (g1, choices)

/-! ### Processes and Attacks

`Process.__call__` runs `setup` once, repeats `main` while `antecedent`
holds, then runs `teardown` once (`Attack.clear_internal_state` resets the
`immunity` flag).  The loop is executed under explicit fuel; exhausting the
fuel is reported as `fuelOut`, so `fuelOut` for every fuel value means the
loop never exits. -/
inductive RunErr where
  | py (e : PyErr)
  | fuelOut
  deriving DecidableEq

/-- Model of `resolve(state, actor, decision, decider)`: generate the choices, let the
decider select one, and enact it. -/
def resolveD (sel : List Cons → Cons) (g : GState) (imm : Bool)
    (genChoices : GState → Except PyErr (GState × List Cons)) :
    Except PyErr (GState × Bool) := do
  let gc ← genChoices g
  enactC gc.1 imm (sel gc.2)

/-- An Attack subclass: the extra antecedent conjunct (`True` for subclasses
such as WitchAttack / BanditAttack / BureaucratAttack that do not override
`antecedent`), and the victim-facing main Decision. -/
structure AttackCfg where
  cond : GState → Bool
  mainChoices : GState → Except PyErr (GState × List Cons)

/-- The `while self.antecedent: self.main(state)` loop of an Attack, with the
victim (decider) `sel` resolving the main Decision each iteration.  Returns
the final state, the process's immunity flag and the number of iterations. -/
def attackLoop (sel : List Cons → Cons) (cfg : AttackCfg) :
    Nat → GState → Bool → Nat → Except RunErr (GState × Bool × Nat)
  | fuel, g, imm, iters =>
    if !imm && cfg.cond g then
      match fuel with
      | 0 => .error .fuelOut
      | fuel' + 1 =>
        match resolveD sel g imm cfg.mainChoices with
        | .error e => .error (.py e)
        | .ok gi => attackLoop sel cfg fuel' gi.1 gi.2 (iters + 1)
    else
      .ok (g, imm, iters)

/-- Model of `Attack.__call__`: setup (the victim's ImmunityProcedure), the main
loop, then teardown (`clear_internal_state` resets immunity to `false`).
Returns the final state, the immunity flag after teardown, and the number
of main-loop iterations. -/
def attackRun (fuel : Nat) (sel : List Cons → Cons) (cfg : AttackCfg)
    (g : GState) (i : Nat) : Except RunErr (GState × Bool × Nat) := do
  let s ← (resolveD sel g false
      (fun s => .ok (s, immunityProcedure_generate_choices s i))).mapError RunErr.py
  let r ← attackLoop sel cfg fuel s.1 s.2 0
  pure (r.1, false, r.2.2)

/-! ### Hypothetical evaluation (`would_win` / `would_win_outright`)

The ranking comparator is `Actor.__lt__`, an external Actor capability that
reads the actor's zones together with the `include`/`exclude` scratch lists;
it is taken as a parameter `ltFn` that may raise.  A player's `opponents`
list is passed explicitly.  Python mutations of the player persist across a
raised exception, so each function returns the player's final value
alongside the (possibly failing) result. -/
structure HypoPlayer where
  HAND : List Piece
  DECK : List Piece
  DISCARD : List Piece
  PLAY : List Piece
  ASIDE : List Piece
  «include» : List Piece
  «exclude» : List Piece
  deriving DecidableEq

/-- An Acquisition as seen by `modify_collection`: its `gained_piece`, and
`lost_piece` when the value is a `DependentAcquisition` (the
`hasattr`/`is not None` check becomes an `Option`). -/
structure AcqView where
  gained_piece : Piece
  lost_piece : Option Piece
  deriving DecidableEq

/-- Model of `modify_collection(player, acquisition)`. -/
def modify_collection (p : HypoPlayer) (acq : AcqView) : HypoPlayer :=
  let p1 := { p with «include» := p.«include» ++ [acq.gained_piece] }
  match acq.lost_piece with
  | some lost => { p1 with «exclude» := p1.«exclude» ++ [lost] }
  | none => p1

/-- Model of `revert_collection(player)`. -/
def revert_collection (p : HypoPlayer) : HypoPlayer :=
  { p with «include» := [], «exclude» := [] }

/-- Model of `would_defeat(player, opponent)`: `(opponent < player) and not(player <
opponent)` with Python short-circuiting. -/
def would_defeat (ltFn : HypoPlayer → HypoPlayer → Except PyErr Bool)
    (player opponent : HypoPlayer) : Except PyErr Bool := do
  let b1 ← ltFn opponent player
  if b1 then do
    let b2 ← ltFn player opponent
    pure (!b2)
  else
    pure false

/-- Model of `would_defeat_or_tie(player, opponent)`: `not(player < opponent)`. -/
def would_defeat_or_tie (ltFn : HypoPlayer → HypoPlayer → Except PyErr Bool)
    (player opponent : HypoPlayer) : Except PyErr Bool := do
  let b ← ltFn player opponent
  pure (!b)

/-- Model of `all(pred(player, opponent) for opponent in opponents)` with Python
short-circuiting and exception propagation. -/
def allOpponents (pred : HypoPlayer → Except PyErr Bool) :
    List HypoPlayer → Except PyErr Bool
  | [] => .ok true
  | o :: os => do
    let b ← pred o
    if b then allOpponents pred os else pure false

/-- Model of `would_win_outright(player, acquisition)`: modify the scratch lists,
rank against every opponent, then revert.  There is no `try/finally` in the
source: when the ranking evaluation raises, `revert_collection` is never
reached and the exception propagates with the scratch lists still
populated. -/
def would_win_outright (ltFn : HypoPlayer → HypoPlayer → Except PyErr Bool)
    (player : HypoPlayer) (acq : AcqView) (opponents : List HypoPlayer) :
    HypoPlayer × Except PyErr Bool :=
  let p1 := modify_collection player acq
  match allOpponents (would_defeat ltFn p1) opponents with
  | .ok r => (revert_collection p1, .ok r)
  | .error e => (p1, .error e)

/-- Model of `would_win(player, acquisition)`: as `would_win_outright` but counting a
tie for first as a win. -/
def would_win (ltFn : HypoPlayer → HypoPlayer → Except PyErr Bool)
    (player : HypoPlayer) (acq : AcqView) (opponents : List HypoPlayer) :
    HypoPlayer × Except PyErr Bool :=
  let p1 := modify_collection player acq
  match allOpponents (would_defeat_or_tie ltFn p1) opponents with
  | .ok r => (revert_collection p1, .ok r)
  | .error e => (p1, .error e)

/-! ### The transfer-operation catalogue and the conservation measure

`TransferOp` is the catalogue of zone-transfer operations named by the spec
(draw, gain, buy, trash, discard, topdeck, play, set-aside, replenish, plus
the put/swap helpers); `applyTransferOp` applies one such operation exactly
as the engine function of the same name does. -/
inductive TransferOp where
  | drawOp (i : Nat) (n : Nat)
  | gainOp (i : Nat) (piece : Piece) (destination : Option AZone)
  | buyOp (i : Nat) (piece : Piece) (destination : Option AZone)
  | trashOp (i : Nat) (piece : Piece) (source : Option AZone)
  | trashManyOp (i : Nat) (pieces : List Piece) (source : Option AZone)
  | discardOp (i : Nat) (piece : Piece) (source : Option AZone)
  | discardManyOp (i : Nat) (pieces : List Piece) (source : Option AZone)
  | discardZoneOp (i : Nat)
  | topdeckOp (i : Nat) (piece : Piece) (source : AZone)
  | putOp (i : Nat) (piece : Piece) (destination : Option AZone) (source : Option AZone)
  | setAsideOp (i : Nat) (piece : Piece) (source : AZone)
  | playOp (i : Nat) (piece : Piece) (source : Option AZone) (free : Bool)
  | replenishOp (i : Nat)
  | swapTopOp (i : Nat)
  deriving DecidableEq

/-- Model of `replenish_deck` lifted to the state (the engine mutates the actor in
place). -/
def replenishG (σ : List Piece → List Piece) (g : GState) (i : Nat) :
    Except PyErr GState := do
  let a ← getPlayer g i
  setPlayer g i (replenish_deck σ a)

def applyTransferOp (σ : List Piece → List Piece) (g : GState) :
    TransferOp → Except PyErr GState
  | .drawOp i n => draw σ g i n
  | .gainOp i piece destination => gain g i piece destination
  | .buyOp i piece destination => buy_piece g i piece destination
  | .trashOp i piece source => trash g i piece source
  | .trashManyOp i pieces source => trash_pieces g i pieces source
  | .discardOp i piece source => discard_piece g i piece source
  | .discardManyOp i pieces source => discard_pieces g i pieces source
  | .discardZoneOp i => discard_zone g i
  | .topdeckOp i piece source => topdeck g i piece source
  | .putOp i piece destination source => put g i piece destination source
  | .setAsideOp i piece source => set_aside g i piece source
  | .playOp i piece source free => play_piece g i piece source free
  | .replenishOp i => replenishG σ g i
  | .swapTopOp i => swap_top_cards_of_deck g i

/-- Applying a sequence of transfer operations (e.g. all the zone transfers
performed while a Consequence or a card's `resolve_effects` unfolds). -/
def applyTransferOps (σ : List Piece → List Piece) :
    GState → List TransferOp → Except PyErr GState
  | g, [] => .ok g
  | g, op :: ops => do
    let g1 ← applyTransferOp σ g op
    applyTransferOps σ g1 ops

/-- The multiset of Piece instances in an actor's five zones. -/
def actorMS (a : Actor) : Multiset Piece :=
  (a.HAND : Multiset Piece) + (a.DECK : Multiset Piece) +
    (a.DISCARD : Multiset Piece) + (a.PLAY : Multiset Piece) +
    (a.ASIDE : Multiset Piece)

/-- A supply pile's contribution to the conservation measure. -/
def pileMS (l : List Piece) : Multiset Piece := (l : Multiset Piece)

/-- The multiset of all Piece instances in the game: every player's zones,
every supply pile, and the trash. -/
def totalMS (g : GState) : Multiset Piece :=
  (g.players.map actorMS).sum + (g.piles.map pileMS).sum + (g.TRASH : Multiset Piece)

/-! ### Concrete states used by the witnesses and counterexamples -/

def moatW : Piece := ⟨10, "Moat", 2, 7, true, false, false, false, false⟩

def copperW : Piece := ⟨11, "Copper", 0, 4, false, true, false, false, false⟩

def silverW : Piece := ⟨12, "Silver", 3, 5, false, true, false, false, false⟩

def goldW : Piece := ⟨13, "Gold", 6, 6, false, true, false, false, false⟩

/-- An Estate sitting in supply pile 0 of the conservation witness state. -/
def estateW : Piece := ⟨14, "Estate", 2, 0, false, false, true, false, false⟩

/-- A Province in supply pile 1 of the buy-scenario witness state. -/
def provinceW : Piece := ⟨15, "Province", 8, 1, false, false, true, true, true⟩

def baseState : GState :=
  { players := [], piles := [], TRASH := [], n_action := 0, n_buy := 0,
    n_coin := 0, n_empty_piles := 0, n_silver_played_this_turn := 0,
    merchant_silver_bonus := 0, need_action_phase := false,
    need_treasure_phase := false, need_buy_phase := false,
    province_pile_empty := false }

/-- Conservation witness: one player holding a Copper, one supply pile with
an Estate. -/
def gW : GState :=
  { baseState with players := [⟨[copperW], [], [], [], []⟩], piles := [[estateW]] }

/-- Result of trashing the Copper and then gaining the Estate from `gW`. -/
def gW2 : GState :=
  { baseState with
    players := [⟨[], [], [estateW], [], []⟩]
    piles := [[]]
    TRASH := [copperW]
    n_empty_piles := 1 }

/-- Draw witness: deck holds a Silver, discard a Gold. -/
def gD : GState :=
  { baseState with players := [⟨[], [silverW], [goldW], [], []⟩] }

/-- Replenish witness: deck holds a Silver, discard a Gold. -/
def gR : GState :=
  { baseState with players := [⟨[], [silverW], [goldW], [], []⟩] }

/-- Buy-scenario witness: the only non-empty pile holds one Province, with
`n_coin = 8` and `n_buy = 1`. -/
def gB : GState :=
  { baseState with
    players := [⟨[], [], [], [], []⟩]
    piles := [[], [provinceW]]
    n_coin := 8
    n_buy := 1 }

/-- Immunity witness: the victim (player 0) holds a Moat. -/
def gM : GState :=
  { baseState with players := [⟨[moatW], [], [], [], []⟩] }

/-- Non-termination counterexample: the victim (player 0) holds no Moat and
has an empty deck and discard pile. -/
def gNB : GState :=
  { baseState with players := [⟨[copperW], [], [], [], []⟩] }

/-- Sentry counterexample: the actor's deck holds a Silver and a Gold. -/
def gS : GState :=
  { baseState with players := [⟨[], [silverW, goldW], [], [], []⟩] }

/-- A decider that selects the first offered Consequence. -/
def selHead : List Cons → Cons := fun l => l.headD (NullOption 0)

/-- A trivial Attack configuration (extra antecedent `True`, main Decision
offering a NullOption), standing in for an arbitrary attack in the
immunity witness. -/
def cfgTriv : AttackCfg := ⟨fun _ => true, fun s => .ok (s, [NullOption 0])⟩

/-- Model of `BanditAttack(victim)`: it does not override `antecedent`, so the extra
conjunct is `True`, and its main effect resolves `BanditProcedure` against
the victim. -/
def banditAttackCfg (σ : List Piece → List Piece) (i : Nat) : AttackCfg :=
  ⟨fun _ => true, fun s => banditProcedure_generate_choices σ s i⟩

/-- An external ranking comparator that raises (`Actor.__lt__` is an
external capability; the spec requires the scratch-list revert to survive
a raising comparator). -/
def ltRaise : HypoPlayer → HypoPlayer → Except PyErr Bool :=
  fun _ _ => .error .typeError

/-- The player evaluating a hypothetical acquisition. -/
def pC : HypoPlayer := ⟨[copperW], [], [], [], [], [], []⟩

/-- Their single opponent. -/
def oC : HypoPlayer := ⟨[goldW], [], [], [], [], [], []⟩

/-- The hypothetical acquisition: gaining a Province. -/
def acqC : AcqView := ⟨provinceW, none⟩

/-! #### Conservation lemmas -/

theorem removeFirst_ms {piece : Piece} :
    ∀ {l l' : List Piece}, removeFirst piece l = some l' →
      (l : Multiset Piece) = piece ::ₘ (l' : Multiset Piece) := by
  intro l
  induction l with
  | nil => intro l' h; simp [removeFirst] at h
  | cons x xs ih =>
    intro l' h
    by_cases hx : x = piece
    · simp [removeFirst, hx] at h
      subst hx
      rw [← h]
      exact (Multiset.cons_coe x xs).symm
    · simp [removeFirst, hx] at h
      obtain ⟨ys, hys, hl'⟩ := h
      subst hl'
      have := ih hys
      rw [← Multiset.cons_coe, ← Multiset.cons_coe, this, Multiset.cons_swap]

theorem transfer_top_ms {destination source d' s' : List Piece}
    (h : transfer_top_list destination source = .ok (d', s')) :
    (d' : Multiset Piece) + (s' : Multiset Piece) =
      (destination : Multiset Piece) + (source : Multiset Piece) := by
  unfold transfer_top_list at h
  cases hL : source.getLast? with
  | none => rw [hL] at h; exact absurd h (by simp)
  | some x =>
    rw [hL] at h
    simp only [Except.ok.injEq, Prod.mk.injEq] at h
    obtain ⟨hd, hs⟩ := h
    subst hd hs
    have hsrc : source.dropLast ++ [x] = source := by
      cases source with
      | nil => simp at hL
      | cons y ys =>
        have : (y :: ys).getLast (by simp) = x := by
          have := List.getLast?_eq_getLast (y :: ys) (by simp)
          rw [hL] at this
          exact (Option.some.injEq _ _).mp this.symm
        rw [← this]
        exact List.dropLast_append_getLast (by simp)
    calc ((destination ++ [x] : List Piece) : Multiset Piece) + (source.dropLast : Multiset Piece)
        = ((destination : Multiset Piece) + (([x] : List Piece) : Multiset Piece)) + (source.dropLast : Multiset Piece) := by
          rw [← Multiset.coe_add]
      _ = (destination : Multiset Piece) + ((source.dropLast : Multiset Piece) + (([x] : List Piece) : Multiset Piece)) := by
          rw [add_assoc, add_comm (([x] : List Piece) : Multiset Piece)]
      _ = (destination : Multiset Piece) + ((source.dropLast ++ [x] : List Piece) : Multiset Piece) := by
          rw [Multiset.coe_add]
      _ = (destination : Multiset Piece) + (source : Multiset Piece) := by rw [hsrc]

theorem setAZ_ms (a : Actor) (z : AZone) (l : List Piece) :
    actorMS (setAZ a z l) + (getAZ a z : Multiset Piece) =
      actorMS a + (l : Multiset Piece) := by
  cases z <;> dsimp only [actorMS, setAZ, getAZ] <;> abel

theorem getAZ_setAZ_self (a : Actor) (z : AZone) (l : List Piece) :
    getAZ (setAZ a z l) z = l := by
  cases z <;> rfl

theorem sum_map_set {α β : Type} [AddCommMonoid β] (f : α → β) :
    ∀ (l : List α) (i : Nat) (b : α), i < l.length →
      ((l.set i b).map f).sum + f (l.getD i b) = (l.map f).sum + f b := by
  intro l
  induction l with
  | nil => intro i b h; simp at h
  | cons x xs ih =>
    intro i b h
    cases i with
    | zero =>
      simp only [List.set, List.map, List.sum_cons, List.getD_cons_zero]
      abel
    | succ i =>
      simp only [List.set, List.map, List.sum_cons, List.getD_cons_succ]
      rw [add_assoc, ih i b (Nat.lt_of_succ_lt_succ h), ← add_assoc]

theorem getPlayer_ok {g : GState} {i : Nat} {a : Actor}
    (h : getPlayer g i = .ok a) : g.players[i]? = some a := by
  unfold getPlayer at h
  cases hx : g.players[i]? with
  | none => rw [hx] at h; exact absurd h (by simp)
  | some b => rw [hx] at h; simp at h; rw [h]

theorem setPlayer_ok {g : GState} {i : Nat} {a : Actor} {g' : GState}
    (h : setPlayer g i a = .ok g') :
    g' = { g with players := g.players.set i a } ∧ i < g.players.length := by
  unfold setPlayer at h
  by_cases hi : i < g.players.length
  · rw [if_pos hi] at h
    simp at h
    exact ⟨h.symm, hi⟩
  · rw [if_neg hi] at h
    exact absurd h (by simp)

/-- Exchanging one player in the players list exchanges exactly that
actor's contribution to the multiset sum. -/
theorem playersMS_set {g : GState} {i : Nat} {a : Actor} (a' : Actor)
    (hget : g.players[i]? = some a) :
    ((g.players.set i a').map actorMS).sum + actorMS a =
      (g.players.map actorMS).sum + actorMS a' := by
  have hlt : i < g.players.length := by
    by_contra hc
    rw [List.getElem?_eq_none (Nat.le_of_not_lt hc)] at hget
    exact Option.noConfusion hget
  have hD : g.players.getD i a' = a := by
    unfold List.getD
    rw [List.get?_eq_getElem?, hget]
    rfl
  have := sum_map_set actorMS g.players i a' hlt
  rw [hD] at this
  exact this

/-- Likewise for exchanging one supply pile. -/
theorem pilesMS_set {g : GState} {k : Nat} {s : List Piece} (s' : List Piece)
    (hget : g.piles[k]? = some s) :
    ((g.piles.set k s').map pileMS).sum + pileMS s =
      (g.piles.map pileMS).sum + pileMS s' := by
  have hlt : k < g.piles.length := by
    by_contra hc
    rw [List.getElem?_eq_none (Nat.le_of_not_lt hc)] at hget
    exact Option.noConfusion hget
  have hD : g.piles.getD k s' = s := by
    unfold List.getD
    rw [List.get?_eq_getElem?, hget]
    rfl
  have := sum_map_set pileMS g.piles k s' hlt
  rw [hD] at this
  exact this

theorem drain_eq : ∀ (source destination : List Piece),
    drain destination source = (destination ++ source.reverse, []) := by
  intro source
  induction source using List.reverseRecOn with
  | nil => intro destination; simp [drain]
  | append_singleton xs x ih =>
    intro destination
    rw [drain]
    split
    · rename_i h
      simp at h
    · rename_i y h
      rw [List.getLast?_concat] at h
      injection h with h'
      subst h'
      change drain (destination ++ [x]) (xs ++ [x]).dropLast =
        (destination ++ (xs ++ [x]).reverse, [])
      rw [List.dropLast_concat, ih]
      simp

/-- Closed form of `replenish_deck`: the shuffled former discard goes under
the old deck (list end = deck top), the discard ends empty, and the other
zones are untouched. -/
theorem replenish_deck_eq (σ : List Piece → List Piece) (a : Actor) :
    replenish_deck σ a = { a with DECK := σ a.DISCARD ++ a.DECK, DISCARD := [] } := by
  unfold replenish_deck
  simp only [drain_eq]
  simp

/-- Replacing player `i` (read off with `getPlayer`) by `a'` exchanges the
two actors' contributions to the total multiset. -/
theorem totalMS_setPlayer {g g' : GState} {i : Nat} {a a' : Actor}
    (hget : getPlayer g i = .ok a) (hset : setPlayer g i a' = .ok g') :
    totalMS g' + actorMS a = totalMS g + actorMS a' := by
  obtain ⟨hg', _⟩ := setPlayer_ok hset
  subst hg'
  have hx := playersMS_set a' (getPlayer_ok hget)
  unfold totalMS
  dsimp only
  calc ((g.players.set i a').map actorMS).sum + (g.piles.map pileMS).sum +
        (g.TRASH : Multiset Piece) + actorMS a
      = (((g.players.set i a').map actorMS).sum + actorMS a) +
          (g.piles.map pileMS).sum + (g.TRASH : Multiset Piece) := by abel
    _ = ((g.players.map actorMS).sum + actorMS a') +
          (g.piles.map pileMS).sum + (g.TRASH : Multiset Piece) := by rw [hx]
    _ = (g.players.map actorMS).sum + (g.piles.map pileMS).sum +
          (g.TRASH : Multiset Piece) + actorMS a' := by abel

/-- Moving `piece` from one of an actor's zones to another leaves the
actor's multiset unchanged. -/
theorem transfer_within_actor_ms {a : Actor} {s d : AZone} {piece : Piece}
    {s' : List Piece} (h : removeFirst piece (getAZ a s) = some s') :
    actorMS (setAZ (setAZ a s s') d (getAZ (setAZ a s s') d ++ [piece])) =
      actorMS a := by
  set a1 := setAZ a s s' with ha1
  have h1 := setAZ_ms a s s'
  have h2 := setAZ_ms a1 d (getAZ a1 d ++ [piece])
  have h3 : (getAZ a s : Multiset Piece) = piece ::ₘ (s' : Multiset Piece) :=
    removeFirst_ms h
  have h2' : actorMS (setAZ a1 d (getAZ a1 d ++ [piece])) =
      actorMS a1 + {piece} := by
    apply add_right_cancel (b := (getAZ a1 d : Multiset Piece))
    rw [h2, ← Multiset.coe_add, Multiset.coe_singleton]
    abel
  apply add_right_cancel (b := (getAZ a s : Multiset Piece))
  calc actorMS (setAZ a1 d (getAZ a1 d ++ [piece])) + (getAZ a s : Multiset Piece)
      = (actorMS a1 + (getAZ a s : Multiset Piece)) + {piece} := by rw [h2']; abel
    _ = (actorMS a + (s' : Multiset Piece)) + {piece} := by rw [h1]
    _ = actorMS a + (piece ::ₘ (s' : Multiset Piece)) := by
        rw [← Multiset.singleton_add]
        abel
    _ = actorMS a + (getAZ a s : Multiset Piece) := by rw [h3]

/-- Appending a piece to one zone adds exactly that piece to the actor's
multiset. -/
theorem append_zone_actor_ms (a : Actor) (d : AZone) (piece : Piece) :
    actorMS (setAZ a d (getAZ a d ++ [piece])) = actorMS a + {piece} := by
  apply add_right_cancel (b := (getAZ a d : Multiset Piece))
  rw [setAZ_ms, ← Multiset.coe_add, Multiset.coe_singleton]
  abel

theorem totalMS_trash_append (g : GState) (piece : Piece) :
    totalMS { g with TRASH := g.TRASH ++ [piece] } = totalMS g + {piece} := by
  unfold totalMS
  dsimp only
  rw [← Multiset.coe_add, Multiset.coe_singleton]
  abel

theorem coe_filter_split (p : Piece → Bool) (l : List Piece) :
    ((l.filter p : List Piece) : Multiset Piece) +
      ((l.filter (fun x => !(p x)) : List Piece) : Multiset Piece) =
      (l : Multiset Piece) := by
  rw [Multiset.coe_add]
  exact Multiset.coe_eq_coe.mpr (List.filter_append_perm p l)

theorem trash_ms {g g' : GState} {i : Nat} {piece : Piece} {src : Option AZone}
    (h : trash g i piece src = .ok g') : totalMS g' = totalMS g := by
  unfold trash at h
  cases hga : getPlayer g i with
  | error e => rw [hga] at h; exact absurd h (by simp [Bind.bind, Except.bind])
  | ok a =>
    rw [hga] at h
    simp only [Bind.bind, Except.bind] at h
    cases hrf : removeFirst piece (getAZ a (src.getD .hand)) with
    | none => rw [hrf] at h; exact absurd h (by simp)
    | some s' =>
      rw [hrf] at h
      dsimp only at h
      cases hsp : setPlayer g i (setAZ a (src.getD .hand) s') with
      | error e => rw [hsp] at h; exact absurd h (by simp)
      | ok g1 =>
        rw [hsp] at h
        dsimp only at h
        simp only [pure, Except.pure, Except.ok.injEq] at h
        subst h
        have hgeq := totalMS_trash_append g1 piece
        have hexch := totalMS_setPlayer hga hsp
        have hzm := setAZ_ms a (src.getD .hand) s'
        have hrm := removeFirst_ms hrf
        apply add_right_cancel
          (b := actorMS a + (getAZ a (src.getD .hand) : Multiset Piece))
        calc totalMS { g1 with TRASH := g1.TRASH ++ [piece] } +
              (actorMS a + (getAZ a (src.getD .hand) : Multiset Piece))
            = (totalMS g1 + actorMS a) +
                (getAZ a (src.getD .hand) : Multiset Piece) + {piece} := by
              rw [hgeq]; abel
          _ = (totalMS g + actorMS (setAZ a (src.getD .hand) s')) +
                (getAZ a (src.getD .hand) : Multiset Piece) + {piece} := by
              rw [hexch]
          _ = totalMS g + (actorMS (setAZ a (src.getD .hand) s') +
                (getAZ a (src.getD .hand) : Multiset Piece)) + {piece} := by abel
          _ = totalMS g + (actorMS a + (s' : Multiset Piece)) + {piece} := by rw [hzm]
          _ = totalMS g + actorMS a + (piece ::ₘ (s' : Multiset Piece)) := by
              rw [← Multiset.singleton_add]; abel
          _ = totalMS g + (actorMS a + (getAZ a (src.getD .hand) : Multiset Piece)) := by
              rw [← hrm]; abel

/-- A setPlayer step that preserves the actor's own multiset preserves the
total multiset. -/
theorem totalMS_setPlayer_eq {g g' : GState} {i : Nat} {a a' : Actor}
    (hget : getPlayer g i = .ok a) (hset : setPlayer g i a' = .ok g')
    (hms : actorMS a' = actorMS a) : totalMS g' = totalMS g := by
  have := totalMS_setPlayer hget hset
  rw [hms] at this
  exact add_right_cancel this

/-- Splitting a zone into kept and discarded parts and appending the
discarded part to DISCARD preserves the actor's multiset. -/
theorem keep_discard_actor_ms {a : Actor} {s : AZone} {keep disc : List Piece}
    (h : (keep : Multiset Piece) + (disc : Multiset Piece) =
      (getAZ a s : Multiset Piece)) :
    actorMS (setAZ (setAZ a s keep) .discard
      (getAZ (setAZ a s keep) .discard ++ disc)) = actorMS a := by
  set a1 := setAZ a s keep with ha1
  have h1 := setAZ_ms a s keep
  have h2 := setAZ_ms a1 .discard (getAZ a1 .discard ++ disc)
  have h2' : actorMS (setAZ a1 .discard (getAZ a1 .discard ++ disc)) =
      actorMS a1 + (disc : Multiset Piece) := by
    apply add_right_cancel (b := (getAZ a1 .discard : Multiset Piece))
    rw [h2, ← Multiset.coe_add]
    abel
  apply add_right_cancel (b := (getAZ a s : Multiset Piece))
  calc actorMS (setAZ a1 .discard (getAZ a1 .discard ++ disc)) +
        (getAZ a s : Multiset Piece)
      = (actorMS a1 + (getAZ a s : Multiset Piece)) + (disc : Multiset Piece) := by
        rw [h2']; abel
    _ = (actorMS a + (keep : Multiset Piece)) + (disc : Multiset Piece) := by rw [h1]
    _ = actorMS a + ((keep : Multiset Piece) + (disc : Multiset Piece)) := by abel
    _ = actorMS a + (getAZ a s : Multiset Piece) := by rw [h]

theorem discard_piece_ms {g g' : GState} {i : Nat} {piece : Piece}
    {src : Option AZone} (h : discard_piece g i piece src = .ok g') :
    totalMS g' = totalMS g := by
  unfold discard_piece at h
  cases hga : getPlayer g i with
  | error e => rw [hga] at h; exact absurd h (by simp [Bind.bind, Except.bind])
  | ok a =>
    rw [hga] at h
    simp only [Bind.bind, Except.bind] at h
    refine totalMS_setPlayer_eq hga h ?_
    apply keep_discard_actor_ms
    unfold partition
    rw [add_comm]
    exact coe_filter_split (fun x => x = piece) (getAZ a (src.getD .hand))

theorem discard_pieces_ms {g g' : GState} {i : Nat} {pieces : List Piece}
    {src : Option AZone} (h : discard_pieces g i pieces src = .ok g') :
    totalMS g' = totalMS g := by
  unfold discard_pieces at h
  cases hga : getPlayer g i with
  | error e => rw [hga] at h; exact absurd h (by simp [Bind.bind, Except.bind])
  | ok a =>
    rw [hga] at h
    simp only [Bind.bind, Except.bind] at h
    refine totalMS_setPlayer_eq hga h ?_
    apply keep_discard_actor_ms
    rw [add_comm]
    exact coe_filter_split (fun x => pieces.any (fun q => q = x))
      (getAZ a (src.getD .hand))

theorem discard_zone_ms {g g' : GState} {i : Nat}
    (h : discard_zone g i = .ok g') : totalMS g' = totalMS g := by
  unfold discard_zone at h
  cases hga : getPlayer g i with
  | error e => rw [hga] at h; exact absurd h (by simp [Bind.bind, Except.bind])
  | ok a =>
    rw [hga] at h
    simp only [Bind.bind, Except.bind] at h
    refine totalMS_setPlayer_eq hga h ?_
    dsimp only [actorMS, setAZ, getAZ]
    rw [← Multiset.coe_add]
    abel

theorem trash_pieces_ms {i : Nat} {src : Option AZone} :
    ∀ {pieces : List Piece} {g g' : GState},
      trash_pieces g i pieces src = .ok g' → totalMS g' = totalMS g := by
  intro pieces
  induction pieces with
  | nil =>
    intro g g' h
    unfold trash_pieces at h
    simp at h
    rw [h]
  | cons p ps ih =>
    intro g g' h
    unfold trash_pieces at h
    simp only [Bind.bind, Except.bind] at h
    cases ht : trash g i p src with
    | error e => rw [ht] at h; exact absurd h (by simp)
    | ok g1 =>
      rw [ht] at h
      dsimp only at h
      rw [ih h, trash_ms ht]

theorem put_ms {g g' : GState} {i : Nat} {piece : Piece}
    {dst src : Option AZone} (h : put g i piece dst src = .ok g') :
    totalMS g' = totalMS g := by
  unfold put at h
  cases hga : getPlayer g i with
  | error e => rw [hga] at h; exact absurd h (by simp [Bind.bind, Except.bind])
  | ok a =>
    rw [hga] at h
    simp only [Bind.bind, Except.bind] at h
    cases hrf : removeFirst piece (getAZ a (src.getD .deck)) with
    | none => rw [hrf] at h; exact absurd h (by simp)
    | some s' =>
      rw [hrf] at h
      dsimp only at h
      exact totalMS_setPlayer_eq hga h (transfer_within_actor_ms hrf)

theorem topdeck_ms {g g' : GState} {i : Nat} {piece : Piece} {src : AZone}
    (h : topdeck g i piece src = .ok g') : totalMS g' = totalMS g := by
  unfold topdeck at h
  cases hga : getPlayer g i with
  | error e => rw [hga] at h; exact absurd h (by simp [Bind.bind, Except.bind])
  | ok a =>
    rw [hga] at h
    simp only [Bind.bind, Except.bind] at h
    cases hrf : removeFirst piece (getAZ a src) with
    | none => rw [hrf] at h; exact absurd h (by simp)
    | some s' =>
      rw [hrf] at h
      dsimp only at h
      exact totalMS_setPlayer_eq hga h (transfer_within_actor_ms hrf)

theorem set_aside_ms {g g' : GState} {i : Nat} {piece : Piece} {src : AZone}
    (h : set_aside g i piece src = .ok g') : totalMS g' = totalMS g := by
  unfold set_aside at h
  cases hga : getPlayer g i with
  | error e => rw [hga] at h; exact absurd h (by simp [Bind.bind, Except.bind])
  | ok a =>
    rw [hga] at h
    simp only [Bind.bind, Except.bind] at h
    cases hrf : removeFirst piece (getAZ a src) with
    | none => rw [hrf] at h; exact absurd h (by simp)
    | some s' =>
      rw [hrf] at h
      dsimp only at h
      exact totalMS_setPlayer_eq hga h (transfer_within_actor_ms hrf)

theorem play_piece_ms {g g' : GState} {i : Nat} {piece : Piece}
    {src : Option AZone} {free : Bool}
    (h : play_piece g i piece src free = .ok g') : totalMS g' = totalMS g := by
  unfold play_piece at h
  cases free with
  | true =>
    simp only [if_pos] at h
    cases hga : getPlayer g i with
    | error e => rw [hga] at h; exact absurd h (by simp [Bind.bind, Except.bind])
    | ok a =>
      rw [hga] at h
      simp only [Bind.bind, Except.bind] at h
      cases hrf : removeFirst piece (getAZ a (src.getD .hand)) with
      | none => rw [hrf] at h; exact absurd h (by simp)
      | some s' =>
        rw [hrf] at h
        dsimp only at h
        exact totalMS_setPlayer_eq hga h (transfer_within_actor_ms hrf)
  | false =>
    simp only [Bool.false_eq_true, if_neg, ite_false] at h
    cases hga : getPlayer { g with n_action := g.n_action - 1 } i with
    | error e => rw [hga] at h; exact absurd h (by simp [Bind.bind, Except.bind])
    | ok a =>
      rw [hga] at h
      simp only [Bind.bind, Except.bind] at h
      cases hrf : removeFirst piece (getAZ a (src.getD .hand)) with
      | none => rw [hrf] at h; exact absurd h (by simp)
      | some s' =>
        rw [hrf] at h
        dsimp only at h
        have : totalMS g' = totalMS { g with n_action := g.n_action - 1 } :=
          totalMS_setPlayer_eq hga h (transfer_within_actor_ms hrf)
        exact this

theorem swap_top_ms {g g' : GState} {i : Nat}
    (h : swap_top_cards_of_deck g i = .ok g') : totalMS g' = totalMS g := by
  unfold swap_top_cards_of_deck at h
  cases hga : getPlayer g i with
  | error e => rw [hga] at h; exact absurd h (by simp [Bind.bind, Except.bind])
  | ok a =>
    rw [hga] at h
    simp only [Bind.bind, Except.bind] at h
    cases ht1 : transfer_top_list [] a.DECK with
    | error e => rw [ht1] at h; exact absurd h (by simp)
    | ok l1 =>
      rw [ht1] at h
      dsimp only at h
      cases ht2 : transfer_top_list l1.1 l1.2 with
      | error e => rw [ht2] at h; exact absurd h (by simp)
      | ok l2 =>
        rw [ht2] at h
        dsimp only at h
        refine totalMS_setPlayer_eq hga h ?_
        have e1 := transfer_top_ms ht1
        have e2 := transfer_top_ms ht2
        have hms : ((l2.2 ++ l2.1 : List Piece) : Multiset Piece) =
            (a.DECK : Multiset Piece) := by
          rw [← Multiset.coe_add, add_comm (l2.2 : Multiset Piece), e2, e1]
          simp
        have := setAZ_ms a .deck (l2.2 ++ l2.1)
        rw [hms] at this
        change actorMS (setAZ a .deck (l2.2 ++ l2.1)) = actorMS a
        exact add_right_cancel this

theorem replenish_deck_ms {σ : List Piece → List Piece}
    (Hσ : ∀ l, (σ l).Perm l) (a : Actor) :
    actorMS (replenish_deck σ a) = actorMS a := by
  rw [replenish_deck_eq]
  dsimp only [actorMS]
  rw [← Multiset.coe_add]
  have hp : (σ a.DISCARD : Multiset Piece) = (a.DISCARD : Multiset Piece) :=
    Multiset.coe_eq_coe.mpr (Hσ _)
  rw [hp, Multiset.coe_nil]
  abel

theorem prepare_deck_ms {σ : List Piece → List Piece}
    (Hσ : ∀ l, (σ l).Perm l) (a : Actor) (n : Nat) :
    actorMS (prepare_deck σ a n) = actorMS a := by
  unfold prepare_deck
  split
  · split
    · exact replenish_deck_ms Hσ a
    · rfl
  · rfl

theorem drawLoop_ms : ∀ {k : Nat} {a a' : Actor},
    drawLoop a k = .ok a' → actorMS a' = actorMS a := by
  intro k
  induction k with
  | zero =>
    intro a a' h
    unfold drawLoop at h
    simp at h
    rw [h]
  | succ k ih =>
    intro a a' h
    unfold drawLoop at h
    simp only [Bind.bind, Except.bind] at h
    cases ht : transfer_top_list a.HAND a.DECK with
    | error e => rw [ht] at h; exact absurd h (by simp)
    | ok hd =>
      rw [ht] at h
      dsimp only at h
      have e := transfer_top_ms ht
      have hstep : actorMS { a with HAND := hd.1, DECK := hd.2 } = actorMS a := by
        dsimp only [actorMS]
        rw [e]
      rw [ih h, hstep]

theorem draw_ms {σ : List Piece → List Piece} (Hσ : ∀ l, (σ l).Perm l)
    {g g' : GState} {i n : Nat} (h : draw σ g i n = .ok g') :
    totalMS g' = totalMS g := by
  unfold draw at h
  cases hga : getPlayer g i with
  | error e => rw [hga] at h; exact absurd h (by simp [Bind.bind, Except.bind])
  | ok a =>
    rw [hga] at h
    simp only [Bind.bind, Except.bind] at h
    cases hdl : drawLoop (prepare_deck σ a n)
        (min n (prepare_deck σ a n).DECK.length) with
    | error e => rw [hdl] at h; exact absurd h (by simp)
    | ok a2 =>
      rw [hdl] at h
      dsimp only at h
      refine totalMS_setPlayer_eq hga h ?_
      rw [drawLoop_ms hdl, prepare_deck_ms Hσ a n]

theorem replenishG_ms {σ : List Piece → List Piece} (Hσ : ∀ l, (σ l).Perm l)
    {g g' : GState} {i : Nat} (h : replenishG σ g i = .ok g') :
    totalMS g' = totalMS g := by
  unfold replenishG at h
  cases hga : getPlayer g i with
  | error e => rw [hga] at h; exact absurd h (by simp [Bind.bind, Except.bind])
  | ok a =>
    rw [hga] at h
    simp only [Bind.bind, Except.bind] at h
    exact totalMS_setPlayer_eq hga h (replenish_deck_ms Hσ a)

/-- Exchanging one supply pile in the state. -/
theorem totalMS_set_pile {g : GState} {k : Nat} {s : List Piece}
    (s' : List Piece) (hget : g.piles[k]? = some s) :
    totalMS { g with piles := g.piles.set k s' } + pileMS s =
      totalMS g + pileMS s' := by
  have hx := pilesMS_set s' hget
  unfold totalMS
  dsimp only
  calc (g.players.map actorMS).sum + ((g.piles.set k s').map pileMS).sum +
        (g.TRASH : Multiset Piece) + pileMS s
      = (g.players.map actorMS).sum +
          (((g.piles.set k s').map pileMS).sum + pileMS s) +
          (g.TRASH : Multiset Piece) := by abel
    _ = (g.players.map actorMS).sum +
          ((g.piles.map pileMS).sum + pileMS s') +
          (g.TRASH : Multiset Piece) := by rw [hx]
    _ = (g.players.map actorMS).sum + (g.piles.map pileMS).sum +
          (g.TRASH : Multiset Piece) + pileMS s' := by abel

theorem handle_acquisition_ms {g g' : GState} {i : Nat} {piece : Piece}
    {dest : AZone} (h : handle_acquisition g i piece dest = .ok g') :
    totalMS g' = totalMS g := by
  unfold handle_acquisition at h
  cases hpk : g.piles[piece.total_order_index]? with
  | none => rw [hpk] at h; exact absurd h (by simp [Bind.bind, Except.bind])
  | some source =>
    rw [hpk] at h
    simp only [Bind.bind, Except.bind] at h
    cases hrf : removeFirst piece source with
    | none => rw [hrf] at h; exact absurd h (by simp)
    | some source' =>
      rw [hrf] at h
      dsimp only at h
      cases hga : getPlayer g i with
      | error e => rw [hga] at h; exact absurd h (by simp)
      | ok a =>
        rw [hga] at h
        dsimp only at h
        cases hsp : setPlayer
            { g with piles := g.piles.set piece.total_order_index source' } i
            (setAZ a dest (getAZ a dest ++ [piece])) with
        | error e => rw [hsp] at h; exact absurd h (by simp)
        | ok g2 =>
          rw [hsp] at h
          dsimp only at h
          have hg2 : totalMS g' = totalMS g2 := by
            by_cases hemp : source'.isEmpty = true
            · rw [if_pos hemp] at h
              simp only [pure, Except.pure, Except.ok.injEq] at h
              by_cases hpv : piece.is_province = true
              · rw [if_pos hpv] at h
                rw [← h]
                rfl
              · rw [if_neg hpv] at h
                rw [← h]
                rfl
            · rw [if_neg hemp] at h
              simp only [pure, Except.pure, Except.ok.injEq] at h
              rw [← h]
          have hga1 : getPlayer
              { g with piles := g.piles.set piece.total_order_index source' } i =
              .ok a := hga
          have e1 := totalMS_setPlayer hga1 hsp
          have e2 := append_zone_actor_ms a dest piece
          have e3 := totalMS_set_pile source' hpk
          have e4 : pileMS source = piece ::ₘ pileMS source' := removeFirst_ms hrf
          rw [hg2]
          apply add_right_cancel (b := actorMS a + pileMS source)
          calc totalMS g2 + (actorMS a + pileMS source)
              = (totalMS g2 + actorMS a) + pileMS source := by abel
            _ = (totalMS { g with
                  piles := g.piles.set piece.total_order_index source' } +
                  actorMS (setAZ a dest (getAZ a dest ++ [piece]))) + pileMS source := by
                rw [e1]
            _ = (totalMS { g with
                  piles := g.piles.set piece.total_order_index source' } +
                  (actorMS a + {piece})) + pileMS source := by rw [e2]
            _ = (totalMS { g with
                  piles := g.piles.set piece.total_order_index source' } +
                  pileMS source) + actorMS a + {piece} := by abel
            _ = (totalMS g + pileMS source') + actorMS a + {piece} := by rw [e3]
            _ = totalMS g + actorMS a + ({piece} + pileMS source') := by abel
            _ = totalMS g + actorMS a + (piece ::ₘ pileMS source') := by
                rw [Multiset.singleton_add]
            _ = totalMS g + (actorMS a + pileMS source) := by rw [← e4]; abel

theorem gain_ms {g g' : GState} {i : Nat} {piece : Piece} {dest : Option AZone}
    (h : gain g i piece dest = .ok g') : totalMS g' = totalMS g :=
  handle_acquisition_ms h

theorem buy_piece_ms {g g' : GState} {i : Nat} {piece : Piece}
    {dest : Option AZone} (h : buy_piece g i piece dest = .ok g') :
    totalMS g' = totalMS g := by
  unfold buy_piece at h
  have : totalMS (pay_cost g piece) = totalMS g := rfl
  rw [handle_acquisition_ms h, this]

theorem applyTransferOp_ms {σ : List Piece → List Piece}
    (Hσ : ∀ l, (σ l).Perm l) {g g' : GState} {op : TransferOp}
    (h : applyTransferOp σ g op = .ok g') : totalMS g' = totalMS g := by
  cases op with
  | drawOp i n => exact draw_ms Hσ h
  | gainOp i piece destination => exact gain_ms h
  | buyOp i piece destination => exact buy_piece_ms h
  | trashOp i piece source => exact trash_ms h
  | trashManyOp i pieces source => exact trash_pieces_ms h
  | discardOp i piece source => exact discard_piece_ms h
  | discardManyOp i pieces source => exact discard_pieces_ms h
  | discardZoneOp i => exact discard_zone_ms h
  | topdeckOp i piece source => exact topdeck_ms h
  | putOp i piece destination source => exact put_ms h
  | setAsideOp i piece source => exact set_aside_ms h
  | playOp i piece source free => exact play_piece_ms h
  | replenishOp i => exact replenishG_ms Hσ h
  | swapTopOp i => exact swap_top_ms h

theorem applyTransferOps_ms {σ : List Piece → List Piece}
    (Hσ : ∀ l, (σ l).Perm l) : ∀ {ops : List TransferOp} {g g' : GState},
    applyTransferOps σ g ops = .ok g' → totalMS g' = totalMS g := by
  intro ops
  induction ops with
  | nil =>
    intro g g' h
    unfold applyTransferOps at h
    simp at h
    rw [h]
  | cons op ops ih =>
    intro g g' h
    unfold applyTransferOps at h
    simp only [Bind.bind, Except.bind] at h
    cases h1 : applyTransferOp σ g op with
    | error e => rw [h1] at h; exact absurd h (by simp)
    | ok g1 =>
      rw [h1] at h
      dsimp only at h
      rw [ih h, applyTransferOp_ms Hσ h1]

/-! #### Functional specifications of `draw` and `replenish_deck` -/

theorem getPlayer_of_lt {g : GState} {i : Nat} (hi : i < g.players.length) :
    getPlayer g i = .ok (playerD g i) := by
  unfold getPlayer playerD
  rw [List.getElem?_eq_getElem hi]
  unfold List.getD
  rw [List.get?_eq_getElem?, List.getElem?_eq_getElem hi]
  rfl

theorem playerD_set_self {g : GState} {i : Nat} {a : Actor}
    (hi : i < g.players.length) :
    playerD { g with players := g.players.set i a } i = a := by
  unfold playerD List.getD
  dsimp only
  rw [List.get?_eq_getElem?, List.getElem?_set_self (by simpa using hi)]
  rfl

theorem playerD_set_ne {g : GState} {i j : Nat} {a : Actor} (hne : j ≠ i) :
    playerD { g with players := g.players.set i a } j = playerD g j := by
  unfold playerD List.getD
  dsimp only
  rw [List.get?_eq_getElem?, List.get?_eq_getElem?,
    List.getElem?_set_ne (fun he => hne he.symm)]

/-- What the draw loop does: it moves the top `k` cards of the deck, one at
a time, onto the end of the hand (so the top of the deck is drawn first). -/
theorem drawLoop_spec : ∀ {k : Nat} {a : Actor}, k ≤ a.DECK.length →
    drawLoop a k = .ok { a with
      HAND := a.HAND ++ (a.DECK.drop (a.DECK.length - k)).reverse,
      DECK := a.DECK.take (a.DECK.length - k) } := by
  intro k
  induction k with
  | zero =>
    intro a _
    unfold drawLoop
    simp
  | succ k ih =>
    intro a hk
    have hne : a.DECK ≠ [] := by
      intro he
      rw [he] at hk
      exact absurd hk (by simp)
    unfold drawLoop
    simp only [Bind.bind, Except.bind, transfer_top_list,
      List.getLast?_eq_getLast a.DECK hne]
    have hlen : a.DECK.dropLast.length = a.DECK.length - 1 :=
      List.length_dropLast a.DECK
    have hk' : k ≤ a.DECK.dropLast.length := by
      rw [hlen]
      omega
    rw [ih hk']
    dsimp only
    have hcat : a.DECK.dropLast ++ [a.DECK.getLast hne] = a.DECK :=
      List.dropLast_append_getLast hne
    have hm : a.DECK.dropLast.length - k = a.DECK.length - (k + 1) := by
      rw [hlen]
      omega
    have hmle : a.DECK.length - (k + 1) ≤ a.DECK.dropLast.length := by
      rw [hlen]
      omega
    have hdrop : (a.DECK.dropLast ++ [a.DECK.getLast hne]).drop
        (a.DECK.length - (k + 1)) =
        a.DECK.dropLast.drop (a.DECK.length - (k + 1)) ++ [a.DECK.getLast hne] :=
      List.drop_append_of_le_length hmle
    have htake : (a.DECK.dropLast ++ [a.DECK.getLast hne]).take
        (a.DECK.length - (k + 1)) =
        a.DECK.dropLast.take (a.DECK.length - (k + 1)) :=
      List.take_append_of_le_length hmle
    rw [hcat] at hdrop htake
    rw [hm, hdrop, htake]
    simp

/-- After `prepare_deck`, `min n decksize` equals `min n (deck + discard)`:
requesting more cards than exist silently caps at what is available. -/
theorem prepare_deck_len {σ : List Piece → List Piece}
    (Hσ : ∀ l, (σ l).Perm l) (a : Actor) (n : Nat) :
    min n (prepare_deck σ a n).DECK.length =
      min n (a.DECK.length + a.DISCARD.length) := by
  unfold prepare_deck
  split
  · split
    · rw [replenish_deck_eq]
      dsimp only
      rw [List.length_append, (Hσ a.DISCARD).length_eq, Nat.add_comm]
    · rename_i hshort hdisc
      have hd : a.DISCARD = [] := by
        by_contra hc
        exact hdisc hc
      rw [hd]
      simp
  · rename_i hlong
    have hn : n ≤ a.DECK.length := by
      unfold validate_deck_size at hlong
      simp at hlong
      exact hlong
    rw [Nat.min_eq_left hn, Nat.min_eq_left (le_trans hn (Nat.le_add_right _ _))]

/-- C8. `draw(state, actor, n)` never fails: after replenishing from the
discard pile when the deck is short, it moves exactly
`min(n, decksize)` cards from the top of the deck onto the hand, and that
count equals `min(n, deck + discard)` — requesting more cards than exist
draws only what is available instead of raising. -/
theorem draw_never_fails (σ : List Piece → List Piece) (g : GState)
    (i n : Nat) (hi : i < g.players.length) (Hσ : ∀ l, (σ l).Perm l) :
    draw σ g i n = .ok { g with players := g.players.set i ({ prepare_deck σ (playerD g i) n with
          HAND := (prepare_deck σ (playerD g i) n).HAND ++
            ((prepare_deck σ (playerD g i) n).DECK.drop
              ((prepare_deck σ (playerD g i) n).DECK.length -
                min n (prepare_deck σ (playerD g i) n).DECK.length)).reverse,
          DECK := (prepare_deck σ (playerD g i) n).DECK.take
            ((prepare_deck σ (playerD g i) n).DECK.length -
              min n (prepare_deck σ (playerD g i) n).DECK.length) }) } ∧
    min n (prepare_deck σ (playerD g i) n).DECK.length =
      min n ((playerD g i).DECK.length + (playerD g i).DISCARD.length) := by
  constructor
  · unfold draw
    rw [getPlayer_of_lt hi]
    simp only [Bind.bind, Except.bind]
    rw [drawLoop_spec (Nat.min_le_right n _)]
    dsimp only
    unfold setPlayer
    rw [if_pos hi]
  · exact prepare_deck_len Hσ (playerD g i) n

/-- C9. `replenish_deck` puts the shuffled former discard under the cards
already in the deck (which stay on top, in their original relative order),
empties the discard pile, and — as the resulting state record shows —
changes nothing else: no other zone of this or any other player, no supply
pile, no counter. -/
theorem replenish_deck_spec (σ : List Piece → List Piece) (g : GState)
    (i : Nat) (hi : i < g.players.length) (Hσ : ∀ l, (σ l).Perm l) :
    replenishG σ g i = .ok { g with players := g.players.set i ({ playerD g i with
          DECK := σ (playerD g i).DISCARD ++ (playerD g i).DECK,
          DISCARD := [] }) } ∧
    (σ (playerD g i).DISCARD).Perm (playerD g i).DISCARD := by
  constructor
  · unfold replenishG
    rw [getPlayer_of_lt hi]
    simp only [Bind.bind, Except.bind]
    rw [replenish_deck_eq]
    unfold setPlayer
    rw [if_pos hi]
  · exact Hσ _

/-- C2. Applying any sequence of the engine's zone-transfer operations
(draw, gain, buy, trash, discard, topdeck, play, set-aside, replenish and
the put/swap helpers) that completes without raising leaves the multiset of
Piece instances across all players' zones, the supply piles and the trash
unchanged: pieces are only moved, never created or destroyed. -/
theorem conservation_of_pieces (σ : List Piece → List Piece)
    (Hσ : ∀ l, (σ l).Perm l) (g g' : GState) (ops : List TransferOp)
    (h : applyTransferOps σ g ops = .ok g') : totalMS g' = totalMS g :=
  applyTransferOps_ms Hσ h

theorem conservation_of_pieces_witness :
    applyTransferOps (fun l => l) gW
      [TransferOp.trashOp 0 copperW none, TransferOp.gainOp 0 estateW none] =
      .ok gW2 ∧ totalMS gW2 = totalMS gW :=
  ⟨by decide,
   conservation_of_pieces (fun l => l) (fun l => List.Perm.refl l) gW gW2
     [TransferOp.trashOp 0 copperW none, TransferOp.gainOp 0 estateW none]
     (by decide)⟩

theorem draw_never_fails_witness :
    draw (fun l => l) gD 0 1 =
      .ok { baseState with players := [⟨[silverW], [], [goldW], [], []⟩] } ∧
    min 1 (prepare_deck (fun l => l) (playerD gD 0) 1).DECK.length =
      min 1 ((playerD gD 0).DECK.length + (playerD gD 0).DISCARD.length) :=
  draw_never_fails (fun l => l) gD 0 1 (by decide) (fun l => List.Perm.refl l)

theorem replenish_deck_spec_witness :
    replenishG (fun l => l) gR 0 =
      .ok { baseState with players := [⟨[], [goldW, silverW], [], [], []⟩] } ∧
    List.Perm [goldW] [goldW] :=
  replenish_deck_spec (fun l => l) gR 0 (by decide) (fun l => List.Perm.refl l)

/-- C10. Enacting a `PassOption` for the Action phase clears
`need_action_phase` and zeroes `n_action`; for the Treasure phase it only
clears `need_treasure_phase`; for the Buy phase it clears `need_buy_phase`
and zeroes `n_buy` — and, as the result records show, nothing else in the
state (no other counter or flag, no zone of any player) changes. -/
theorem pass_option_end_phase (g : GState) (imm : Bool) (i : Nat) :
    enactC g imm (PassOption i .action) =
      .ok ({ g with need_action_phase := false, n_action := 0 }, imm) ∧
    enactC g imm (PassOption i .treasure) =
      .ok ({ g with need_treasure_phase := false }, imm) ∧
    enactC g imm (PassOption i .buy) =
      .ok ({ g with need_buy_phase := false, n_buy := 0 }, imm) :=
  ⟨rfl, rfl, rfl⟩

/-- C1 (violated by the code). `WitchProcedure.generate_choices` and
`BureaucratProcedure.generate_choices` never return a (non-empty) list of
choices: on every state and actor they raise `NameError` because the local
list `choices` is referenced before assignment in every branch. -/
theorem generate_choices_nonempty_violated (g : GState) (i : Nat) :
    witchProcedure_generate_choices g i = .error (.nameError "choices") ∧
    bureaucratProcedure_generate_choices g i = .error (.nameError "choices") := by
  constructor
  · unfold witchProcedure_generate_choices
    dsimp only
    split <;> rfl
  · unfold bureaucratProcedure_generate_choices
    dsimp only
    split
    · split <;> rfl
    · rfl

/-- C3 (violated by the code). `would_win_outright`/`would_win` have no
`try/finally`: when the external ranking comparator raises, the exception
propagates before `revert_collection` runs, leaving the gained piece in
the player's `include` scratch list. -/
theorem scratch_revert_skipped_on_exception :
    would_win_outright ltRaise pC acqC [oC] =
      ({ pC with «include» := [provinceW] }, .error .typeError) ∧
    would_win ltRaise pC acqC [oC] =
      ({ pC with «include» := [provinceW] }, .error .typeError) :=
  ⟨rfl, rfl⟩

/-- C7 (violated by the code). With a non-empty deck,
`SentryChoices.generate_choices` raises `NameError`: it builds
`functions = [trash, discard]` but the module defines no function named
`discard`, so none of the trash/discard/swap options are ever produced. -/
theorem sentry_choices_name_error :
    sentryChoices_generate_choices (fun l => l) gS 0 =
      .error (.nameError "discard") := by
  decide

/-- C5. When the victim holds a Moat (here: the first Moat representative
`m` of their hand), the ImmunityProcedure offers exactly one Consequence —
revealing that Moat and marking the attack's immunity flag; enacting it
sets the flag; and the whole Attack then performs zero main-loop
iterations, leaves the state unchanged, and teardown resets the immunity
flag to false.  `cfg` ranges over every attack (its extra antecedent
conjunct and main Decision are arbitrary). -/
theorem attack_immunity (g : GState) (i : Nat) (m : Piece) (ms : List Piece)
    (sel : List Cons → Cons) (cfg : AttackCfg) (fuel : Nat)
    (hmoat : get_pieces (playerD g i).HAND true (fun x => x.name = "Moat") =
      m :: ms)
    (hsel : ∀ c, sel [c] = c) :
    immunityProcedure_generate_choices g i =
      [⟨.plainTag, [Eff.eff_reveal i m, Eff.update_immunity]⟩] ∧
    enactC g false ⟨.plainTag, [Eff.eff_reveal i m, Eff.update_immunity]⟩ =
      .ok (g, true) ∧
    attackRun fuel sel cfg g i = .ok (g, false, 0) := by
  have hchoice : immunityProcedure_generate_choices g i =
      [⟨.plainTag, [Eff.eff_reveal i m, Eff.update_immunity]⟩] := by
    unfold immunityProcedure_generate_choices
    rw [hmoat]
  have henact : enactC g false
      ⟨.plainTag, [Eff.eff_reveal i m, Eff.update_immunity]⟩ = .ok (g, true) := rfl
  refine ⟨hchoice, henact, ?_⟩
  have hres : resolveD sel g false
      (fun s => .ok (s, immunityProcedure_generate_choices s i)) =
      .ok (g, true) := by
    unfold resolveD
    simp only [Bind.bind, Except.bind]
    rw [hchoice, hsel]
    exact henact
  have hloop : attackLoop sel cfg fuel g true 0 = .ok (g, true, 0) := by
    rw [attackLoop.eq_def]
    simp
  unfold attackRun
  simp only [Bind.bind, Except.bind]
  rw [hres]
  dsimp only [Except.mapError]
  rw [hloop]
  rfl

theorem attack_immunity_witness :
    (get_pieces (playerD gM 0).HAND true (fun x => x.name = "Moat") =
      [moatW]) ∧
    immunityProcedure_generate_choices gM 0 =
      [⟨.plainTag, [Eff.eff_reveal 0 moatW, Eff.update_immunity]⟩] ∧
    enactC gM false ⟨.plainTag, [Eff.eff_reveal 0 moatW, Eff.update_immunity]⟩ =
      .ok (gM, true) ∧
    attackRun 3 selHead cfgTriv gM 0 = .ok (gM, false, 0) :=
  ⟨by decide,
   attack_immunity gM 0 moatW [] selHead cfgTriv 3 (by decide) (fun c => rfl)⟩

/-- When the only non-empty pile holds exactly `[p]` and `p` satisfies the
predicate, `filter_supply` returns `[p]`. -/
theorem filter_supply_single {g : GState} {p : Piece}
    {E1 E2 : List (List Piece)} (hpiles : g.piles = E1 ++ [p] :: E2)
    (hE1 : ∀ l ∈ E1, l = []) (hE2 : ∀ l ∈ E2, l = [])
    {q : Piece → Bool} (hq : q p = true) : filter_supply g q = [p] := by
  unfold filter_supply
  rw [hpiles, List.filterMap_append]
  have h1 : E1.filterMap (fun pile =>
      match pile.getLast? with
      | some top => if q top then some top else none
      | none => none) = [] := by
    rw [List.filterMap_eq_nil_iff]
    intro l hl
    rw [hE1 l hl]
    rfl
  have h2 : E2.filterMap (fun pile =>
      match pile.getLast? with
      | some top => if q top then some top else none
      | none => none) = [] := by
    rw [List.filterMap_eq_nil_iff]
    intro l hl
    rw [hE2 l hl]
    rfl
  rw [h1, List.filterMap_cons, h2]
  simp [hq]

/-- C4. When the Buy-phase choices are requested with `n_coin = 8` and
`n_buy = 1` and the supply's only non-empty pile holds a single Province
`p` (at pile index `p.total_order_index`), the generated choices are
exactly a PassOption followed by the Purchase of that Province; applying
the Purchase decrements `n_buy` by one and `n_coin` by the Province's
cost, moves the Province from its pile to the actor's DISCARD, increments
`n_empty_piles` and sets `province_pile_empty`. -/
theorem buy_province_scenario (g : GState) (i : Nat) (p : Piece)
    (E1 E2 : List (List Piece))
    (hpiles : g.piles = E1 ++ [p] :: E2)
    (hE1 : ∀ l ∈ E1, l = []) (hE2 : ∀ l ∈ E2, l = [])
    (htoi : p.total_order_index = E1.length)
    (hcoin : g.n_coin = 8) (hbuy : g.n_buy = 1)
    (hcost : p.cost ≤ 8) (hprov : p.is_province = true)
    (hi : i < g.players.length) :
    buyChoices_generate_choices g i = [PassOption i .buy, Purchase i p] ∧
    enactC g false (Purchase i p) = .ok ({ g with
      players := g.players.set i
        (setAZ (playerD g i) .discard (getAZ (playerD g i) .discard ++ [p]))
      piles := g.piles.set p.total_order_index []
      n_buy := g.n_buy - 1
      n_coin := g.n_coin - p.cost
      n_empty_piles := g.n_empty_piles + 1
      province_pile_empty := true }, false) := by
  have hfs : filter_supply g (fun x => x.cost ≤ g.n_coin) = [p] :=
    filter_supply_single hpiles hE1 hE2
      (by rw [hcoin]; exact decide_eq_true hcost)
  constructor
  · unfold buyChoices_generate_choices
    dsimp only
    rw [if_pos (by rw [hbuy]; decide), hfs]
    rfl
  · have hpk : (pay_cost g p).piles[p.total_order_index]? = some [p] := by
      show g.piles[p.total_order_index]? = some [p]
      rw [hpiles, htoi, List.getElem?_append_right (le_refl E1.length)]
      simp
    have hrf : removeFirst p [p] = some [] := by
      simp [removeFirst]
    have hga : getPlayer (pay_cost g p) i = .ok (playerD g i) :=
      getPlayer_of_lt (g := pay_cost g p) hi
    have hbp : buy_piece g i p none = .ok { g with
        players := g.players.set i
          (setAZ (playerD g i) .discard (getAZ (playerD g i) .discard ++ [p]))
        piles := g.piles.set p.total_order_index []
        n_buy := g.n_buy - 1
        n_coin := g.n_coin - p.cost
        n_empty_piles := g.n_empty_piles + 1
        province_pile_empty := true } := by
      unfold buy_piece handle_acquisition
      rw [hpk]
      simp only [Bind.bind, Except.bind]
      rw [hrf]
      dsimp only
      rw [hga]
      dsimp only
      unfold setPlayer
      dsimp only [pay_cost]
      rw [if_pos hi]
      dsimp only
      rw [if_pos hprov]
      rfl
    show enactC g false (Purchase i p) = _
    unfold enactC Purchase enactC.go
    dsimp only [applyEff]
    rw [hbp]
    rfl

theorem buy_province_scenario_witness :
    buyChoices_generate_choices gB 0 = [PassOption 0 .buy, Purchase 0 provinceW] ∧
    enactC gB false (Purchase 0 provinceW) = .ok ({ baseState with
      players := [⟨[], [], [provinceW], [], []⟩]
      piles := [[], []]
      n_empty_piles := 1
      province_pile_empty := true }, false) :=
  buy_province_scenario gB 0 provinceW [[]] [] rfl (by decide) (by decide)
    (by decide) rfl rfl (by decide) rfl (by decide)

/-- C6 (violated by the code). `BanditAttack` — like the Witch and
Bureaucrat attacks — does not override `antecedent`, which therefore stays
`not immunity`, and no main-loop iteration ever changes the immunity flag.
Against a victim with no Moat and an empty deck and discard pile every
iteration returns the state unchanged (the BanditProcedure offers only a
NullOption), so the loop never exits: for every fuel bound the run ends in
`fuelOut` instead of terminating. -/
theorem bandit_attack_never_terminates (fuel : Nat) :
    attackRun fuel selHead (banditAttackCfg (fun l => l) 0) gNB 0 =
      .error .fuelOut := by
  have hstep : resolveD selHead gNB false
      (banditAttackCfg (fun l => l) 0).mainChoices = .ok (gNB, false) := by
    decide
  have hsetup : resolveD selHead gNB false
      (fun s => .ok (s, immunityProcedure_generate_choices s 0)) =
      .ok (gNB, false) := by
    decide
  have hloop : ∀ f iters, attackLoop selHead (banditAttackCfg (fun l => l) 0)
      f gNB false iters = .error .fuelOut := by
    intro f
    induction f with
    | zero =>
      intro iters
      rw [attackLoop.eq_def]
      dsimp only
      have hcond : (!false && (banditAttackCfg (fun l => l) 0).cond gNB) = true := rfl
      rw [hcond, if_pos rfl]
    | succ f ih =>
      intro iters
      rw [attackLoop.eq_def]
      dsimp only
      have hcond : (!false && (banditAttackCfg (fun l => l) 0).cond gNB) = true := rfl
      rw [hcond, if_pos rfl]
      rw [hstep]
      exact ih (iters + 1)
  unfold attackRun
  simp only [Bind.bind, Except.bind]
  rw [hsetup]
  dsimp only [Except.mapError]
  rw [hloop]

end Evodom
